import Mathlib

/-!
Verification of `instagram-follow-unfollow-bot.py` against its design spec.

The script is a single-threaded Selenium workflow.  We shallowly embed its
pure logic: strings become `List Char`, the browser becomes an explicit
oracle record describing the outcome of each DOM interaction, Python
exceptions become `Except` values, and the JSONL log becomes a list of
parsed-line values.  Every definition is translated from the Python source;
definitions whose name ends in `Spec` are instead written from the spec's
words, for refinement comparisons.
-/

namespace IGBot

/-- Python strings, modelled as character lists. -/
abbrev Str := List Char

/-- The whitespace characters removed by Python `str.strip()`
(ASCII range; the script's inputs are usernames). -/
def isSpaceChar (c : Char) : Bool :=
  c = ' ' || c = '\t' || c = '\n' || c = '\r' || c = '\x0b' || c = '\x0c'

/-- Python `s.strip()`: drop leading and trailing whitespace. -/
def pyStrip (s : Str) : Str :=
  ((s.dropWhile isSpaceChar).reverse.dropWhile isSpaceChar).reverse

/-- Python `s.lstrip("@")`: drop every leading `'@'` character. -/
def pyLstripAt (s : Str) : Str :=
  s.dropWhile (fun c => c = '@')

/-- Python `s.lower()` (ASCII). -/
def pyLower (s : Str) : Str :=
  s.map Char.toLower

-- Action-tag and state literals used by the script.

def tagFollow : Str := "follow".toList
def tagFollowing : Str := "following".toList
def tagRequested : Str := "requested".toList
def tagUnavailable : Str := "unavailable".toList
def tagUnfollow : Str := "unfollow".toList
def tagSkipWhitelisted : Str := "skip_whitelisted".toList
def tagNoopAlreadyFollowing : Str := "noop_already_following".toList
def tagNoopNotFollowing : Str := "noop_not_following".toList
def tagNoopUnavailable : Str := "noop_unavailable".toList
def tagNoopFollowClickFailed : Str := "noop_follow_click_failed".toList
def tagNoopUnfollowClickFailed : Str := "noop_unfollow_click_failed".toList

/-! ## `read_usernames` (source lines 64-90)

We embed the plain-text branch: each line is stripped of surrounding
whitespace, blank lines are dropped, and `lstrip("@")` is applied.  (The
CSV branch applies exactly the same per-cell normalization
`row[0].strip().lstrip("@")` to the first column, so the per-entry
normalization and the dedup loop are identical.)  The dedup loop keeps a
`seen` set and appends an entry iff it is non-empty and unseen. -/

/-- One line of the text branch of `read_usernames`: `line = line.strip()`;
if the result is non-empty, `line.lstrip("@")` is collected. -/
def normalizeLine (l : Str) : Option Str :=
  let s := pyStrip l
  if s = [] then none else some (pyLstripAt s)

/-- The `seen`/`uniq` dedup loop at the end of `read_usernames`:
`if u and u not in seen: seen.add(u); uniq.append(u)`. -/
def dedupLoop : List Str → List Str → List Str
  | [], _ => []
  | u :: t, seen =>
    if u ≠ [] ∧ u ∉ seen then u :: dedupLoop t (u :: seen)
    else dedupLoop t seen

/-- `read_usernames` over the lines of the input file (text branch). -/
def read_usernames (lines : List Str) : List Str :=
  dedupLoop (lines.filterMap normalizeLine) []

/-- First-occurrence deduplication, written from the spec's words
("case-sensitive deduplication preserving first-seen order"): keep the
head, deduplicate the tail, and drop later duplicates of the head. -/
def keepFirst {α : Type} [DecidableEq α] : List α → List α
  | [] => []
  | a :: t => a :: (keepFirst t).filter (fun x => x ≠ a)

theorem mem_of_mem_keepFirst {α : Type} [DecidableEq α] {x : α} {l : List α}
    (h : x ∈ keepFirst l) : x ∈ l := by
  induction l with
  | nil => exact absurd h (List.not_mem_nil x)
  | cons a t ih =>
    rw [keepFirst] at h
    rcases List.mem_cons.mp h with h | h
    · exact h ▸ List.mem_cons_self a t
    · exact List.mem_cons_of_mem a (ih (List.mem_of_mem_filter h))

theorem keepFirst_filter_comm {α : Type} [DecidableEq α] (p : α → Bool) (l : List α) :
    (keepFirst l).filter p = keepFirst (l.filter p) := by
  induction l with
  | nil => rfl
  | cons a t ih =>
    rw [keepFirst, List.filter_cons]
    by_cases hp : p a
    · rw [if_pos hp, List.filter_cons, if_pos hp, keepFirst,
        List.filter_comm, ih]
    · rw [if_neg hp, List.filter_cons, if_neg hp, List.filter_comm, ih]
      apply List.filter_eq_self.mpr
      intro x hx
      have hpx : p x = true := List.of_mem_filter (mem_of_mem_keepFirst hx)
      simp only [decide_eq_true_eq]
      intro hxa
      rw [hxa] at hpx
      exact hp hpx

theorem dedupLoop_eq_keepFirst (l : List Str) (seen : List Str) :
    dedupLoop l seen = keepFirst (l.filter (fun u => u ≠ [] ∧ u ∉ seen)) := by
  induction l generalizing seen with
  | nil => simp [dedupLoop, keepFirst]
  | cons u t ih =>
    by_cases h : u ≠ [] ∧ u ∉ seen
    · rw [dedupLoop, if_pos h, List.filter_cons, if_pos (by simpa using h),
        keepFirst, keepFirst_filter_comm, List.filter_filter, ih (u :: seen)]
      congr 1
      congr 1
      apply List.filter_congr
      intro x _
      simp only [decide_eq_true_eq, List.mem_cons, Bool.and_eq_true, ne_eq]
      by_cases hx : x = u <;> by_cases hxe : x = [] <;>
        by_cases hxs : x ∈ seen <;> simp [hx, hxe, hxs]
    · rw [dedupLoop, if_neg h, List.filter_cons, if_neg (by simpa using h), ih seen]

theorem keepFirst_nodup {α : Type} [DecidableEq α] (l : List α) :
    (keepFirst l).Nodup := by
  induction l with
  | nil => exact List.nodup_nil
  | cons a t ih =>
    rw [keepFirst]
    refine List.nodup_cons.mpr ⟨fun hmem => ?_, ih.filter _⟩
    have := List.of_mem_filter hmem
    simp at this

theorem filterMap_normalize_filter (lines : List Str) :
    (lines.filterMap normalizeLine).filter (fun u => u ≠ []) =
      (lines.map (fun l => pyLstripAt (pyStrip l))).filter (fun u => u ≠ []) := by
  induction lines with
  | nil => rfl
  | cons l t ih =>
    have ih2 : List.filter (fun u => !decide (u = [])) (List.filterMap normalizeLine t) =
        List.filter (fun u => !decide (u = [])) (List.map (fun l => pyLstripAt (pyStrip l)) t) := by
      simpa using ih
    simp only [List.filterMap_cons, List.map_cons, normalizeLine]
    by_cases h : pyStrip l = []
    · have hnil : pyLstripAt (pyStrip l) = [] := by rw [h]; rfl
      rw [if_pos h, List.filter_cons]
      simp [hnil, ih2]
    · rw [if_neg h]
      simp only [List.filter_cons]
      by_cases h2 : pyLstripAt (pyStrip l) = [] <;> simp [h2, ih2]

/-- Claim C3, counterexample: the loader strips ALL leading `'@'`
characters (`lstrip("@")`), not at most one — the line `"@@alice"` yields
`"alice"`, whereas stripping at most one `'@'` would yield `"@alice"`. -/
theorem read_usernames_strips_all_ats :
    read_usernames ["@@alice".toList] = ["alice".toList] ∧
      ("alice".toList : Str) ≠ "@alice".toList := by
  constructor
  · rfl
  · decide

/-- Claim C3, amended: the loader trims surrounding whitespace, then strips
every leading `'@'`, drops entries that are blank after this normalization,
and deduplicates preserving first-occurrence order (so the output has no
duplicates); the spec's example `[@alice, bob, alice, " ", carol]` yields
`[alice, bob, carol]`. -/
theorem read_usernames_normalizes_and_dedups (lines : List Str) :
    read_usernames lines =
      keepFirst ((lines.map (fun l => pyLstripAt (pyStrip l))).filter (fun u => u ≠ []))
    ∧ (read_usernames lines).Nodup
    ∧ read_usernames
        ["@alice".toList, "bob".toList, "alice".toList, " ".toList, "carol".toList]
        = ["alice".toList, "bob".toList, "carol".toList] := by
  have hmain : read_usernames lines =
      keepFirst ((lines.map (fun l => pyLstripAt (pyStrip l))).filter (fun u => u ≠ [])) := by
    rw [read_usernames, dedupLoop_eq_keepFirst, ← filterMap_normalize_filter]
    congr 1
    apply List.filter_congr
    intro x _
    simp
  refine ⟨hmain, ?_, by rfl⟩
  rw [hmain]
  exact keepFirst_nodup _

/-! ## Action log: `load_last_followed` (source lines 97-112)

A log line is read with `json.loads` and then inspected with `rec.get`.
Only `json.JSONDecodeError` is caught, so a line holding valid JSON that is
not an object (e.g. `42`) makes `rec.get` raise an uncaught
`AttributeError`.  Field values are modelled as scalar JSON values; the
cross-type key unification of Python dicts (`True == 1`) is not modelled,
as no claim exercises non-string usernames. -/

/-- Scalar JSON values occurring in a log record's fields. -/
inductive JVal : Type
  | jstr (s : Str)
  | jbool (b : Bool)
  | jnum (n : Int)
  | jnull
deriving DecidableEq

/-- Python truthiness of a modelled JSON scalar. -/
def JVal.truthy : JVal → Bool
  | .jstr s => !s.isEmpty
  | .jbool b => b
  | .jnum n => n != 0
  | .jnull => false

/-- One parsed log object: the three keys `load_last_followed` reads.
`none` models an absent key (`rec.get` returning `None`). -/
structure LogRec : Type where
  action : Option JVal
  success : Option JVal
  username : Option JVal
deriving DecidableEq

/-- One line of the JSONL log: `badJson` fails `json.loads` (caught as
`JSONDecodeError` and skipped), `nonObject` is valid JSON that is not an
object (so `rec.get` raises an uncaught `AttributeError`), `obj r` is a
JSON object. -/
inductive LogLine : Type
  | badJson
  | nonObject
  | obj (r : LogRec)
deriving DecidableEq

def errAttr : Str := "AttributeError".toList

/-- The scan loop of `load_last_followed`: collect `rec["username"]` for
every line whose record has `action == "follow"`, `success is True` and a
truthy username; `continue` past lines that fail JSON parsing; raise on
non-object JSON. -/
def collectFollowed : List LogLine → Except Str (List JVal)
  | [] => .ok []
  | .badJson :: t => collectFollowed t
  | .nonObject :: _ => .error errAttr
  | .obj r :: t =>
    match collectFollowed t with
    | .error e => .error e
    | .ok rest =>
      match r.username with
      | some v =>
        if r.action = some (.jstr tagFollow) ∧ r.success = some (.jbool true) ∧ v.truthy
        then .ok (v :: rest)
        else .ok rest
      | none => .ok rest

/-- Python `l[-n:]` for `n > 0`: the last `n` elements. -/
def takeLast {α : Type} (n : Nat) (l : List α) : List α :=
  l.drop (l.length - n)

/-- `load_last_followed` over the parsed log lines.  `dict.fromkeys`
deduplication is `keepFirst`; `if limit:` treats `None` and `0` alike
(no truncation), and a positive limit becomes `[-limit:]`. -/
def load_last_followed (lines : List LogLine) (limit : Option Nat) :
    Except Str (List JVal) :=
  match collectFollowed lines with
  | .error e => .error e
  | .ok followed =>
    match limit with
    | some (n + 1) => .ok (takeLast (n + 1) (keepFirst followed))
    | _ => .ok (keepFirst followed)

/-- Modelled from the spec's words ("scanning the full log for records
where mode=follow-action and success=true, collecting usernames in file
order"): the successful-follow usernames, in log order. -/
def followedNamesSpec (lines : List LogLine) : List JVal :=
  lines.filterMap fun
    | .obj r =>
      match r.username with
      | some v =>
        if r.action = some (.jstr tagFollow) ∧ r.success = some (.jbool true) ∧ v.truthy
        then some v else none
      | none => none
    | _ => none

/-- A well-formed successful-follow record for username `u`. -/
def recFollowOK (u : String) : LogRec :=
  ⟨some (.jstr tagFollow), some (.jbool true), some (.jstr u.toList)⟩

theorem collectFollowed_ok_of_no_nonObject (lines : List LogLine)
    (h : ∀ l ∈ lines, l ≠ LogLine.nonObject) :
    collectFollowed lines = .ok (followedNamesSpec lines) := by
  induction lines with
  | nil => rfl
  | cons l t ih =>
    have ht : ∀ x ∈ t, x ≠ LogLine.nonObject := fun x hx => h x (List.mem_cons_of_mem l hx)
    cases l with
    | badJson => simpa [collectFollowed, followedNamesSpec, List.filterMap_cons] using ih ht
    | nonObject => exact absurd rfl (h _ (List.mem_cons_self _ _))
    | obj r =>
      rw [collectFollowed, ih ht]
      cases hv : r.username with
      | none => simp [followedNamesSpec, List.filterMap_cons, hv]
      | some v =>
        by_cases hc : r.action = some (.jstr tagFollow) ∧ r.success = some (.jbool true)
            ∧ v.truthy <;>
          simp [followedNamesSpec, List.filterMap_cons, hv, hc]

theorem collectFollowed_names_of_ok (lines : List LogLine) (fs : List JVal)
    (h : collectFollowed lines = .ok fs) : fs = followedNamesSpec lines := by
  induction lines generalizing fs with
  | nil =>
    rw [collectFollowed] at h
    cases h
    rfl
  | cons l t ih =>
    cases l with
    | badJson =>
      rw [collectFollowed] at h
      rw [followedNamesSpec, List.filterMap_cons]
      exact ih fs h
    | nonObject =>
      rw [collectFollowed] at h
      cases h
    | obj r =>
      rw [collectFollowed] at h
      cases hc : collectFollowed t with
      | error e => rw [hc] at h; cases h
      | ok rest =>
        rw [hc] at h
        have hr := ih rest hc
        rw [followedNamesSpec, List.filterMap_cons]
        cases hv : r.username with
        | none =>
          simp only [hv] at h
          cases h
          simpa [hv] using hr
        | some v =>
          by_cases hcond : r.action = some (.jstr tagFollow)
              ∧ r.success = some (.jbool true) ∧ v.truthy
          · simp only [hv, hcond, if_true] at h
            cases h
            simp [hv, hcond, hr, followedNamesSpec]
          · simp only [hv, hcond, if_false] at h
            cases h
            simp [hv, hcond, hr, followedNamesSpec]

/-- Lines that are not JSON objects at all. -/
def isObjLine : LogLine → Bool
  | .obj _ => true
  | _ => false

theorem collectFollowed_filter_obj (lines : List LogLine)
    (h : ∀ l ∈ lines, l ≠ LogLine.nonObject) :
    collectFollowed (lines.filter isObjLine) = collectFollowed lines := by
  induction lines with
  | nil => rfl
  | cons l t ih =>
    have ht : ∀ x ∈ t, x ≠ LogLine.nonObject := fun x hx => h x (List.mem_cons_of_mem l hx)
    cases l with
    | badJson => simp [List.filter_cons, isObjLine, collectFollowed, ih ht]
    | nonObject => exact absurd rfl (h _ (List.mem_cons_self _ _))
    | obj r =>
      rw [List.filter_cons]
      simp only [isObjLine, if_true]
      rw [collectFollowed, collectFollowed, ih ht]

/-- Claim C4, counterexample: `dict.fromkeys` keeps the FIRST occurrence of
each username, not the last: a log of successful follows of alice, bob,
alice reads back as `[alice, bob]`, whereas deduplication keeping the last
occurrence would give `[bob, alice]`. -/
theorem load_last_followed_keeps_first :
    load_last_followed
        [.obj (recFollowOK "alice"), .obj (recFollowOK "bob"), .obj (recFollowOK "alice")]
        none
      = .ok [.jstr "alice".toList, .jstr "bob".toList]
    ∧ ([JVal.jstr "alice".toList, .jstr "bob".toList]
        ≠ [JVal.jstr "bob".toList, .jstr "alice".toList]) := by
  refine ⟨by rfl, by decide⟩

/-- Claim C4, amended: reading back "last followed" returns the usernames
of records with action tag "follow", success true and a non-empty
username, in log order, deduplicated keeping the FIRST occurrence of each
username; a requested positive limit truncates to the last `n` entries of
that deduplicated list. -/
theorem load_last_followed_dedups_first_and_truncates (lines : List LogLine) (n : Nat)
    (h : ∀ l ∈ lines, l ≠ LogLine.nonObject) :
    load_last_followed lines none = .ok (keepFirst (followedNamesSpec lines))
    ∧ load_last_followed lines (some (n + 1))
        = .ok (takeLast (n + 1) (keepFirst (followedNamesSpec lines)))
    ∧ (keepFirst (followedNamesSpec lines)).Nodup := by
  have hc := collectFollowed_ok_of_no_nonObject lines h
  exact ⟨by simp [load_last_followed, hc], by simp [load_last_followed, hc],
    keepFirst_nodup _⟩

/-- Witness for the amended C4 theorem at a concrete one-record log. -/
theorem load_last_followed_dedups_first_and_truncates_witness :
    load_last_followed [.obj (recFollowOK "carol")] (some 1)
      = .ok [JVal.jstr "carol".toList] := by
  have h := load_last_followed_dedups_first_and_truncates
      [.obj (recFollowOK "carol")] 0 (by decide)
  exact h.2.1.trans (by rfl)

/-- Claim C6, counterexample: a line holding valid JSON that is not an
object (e.g. the line `42`) is not a well-formed ActionRecord, yet reading
it back raises: `rec.get` on a non-dict raises `AttributeError`, which is
not the caught `JSONDecodeError`, so the read aborts instead of skipping
the line. -/
theorem load_last_followed_raises_on_non_object :
    load_last_followed [LogLine.nonObject] none = .error errAttr := rfl

/-- Claim C6, amended: lines that fail JSON parsing are skipped without
aborting the read, and the result is the one computed from the well-formed
(object) records alone; but a line that parses as non-object JSON aborts
the read with an uncaught error. -/
theorem load_last_followed_skips_bad_json (lines : List LogLine) (limit : Option Nat)
    (h : ∀ l ∈ lines, l ≠ LogLine.nonObject) :
    load_last_followed lines limit
      = load_last_followed (lines.filter isObjLine) limit
    ∧ ∃ res, load_last_followed lines limit = .ok res := by
  have hc := collectFollowed_ok_of_no_nonObject lines h
  constructor
  · rw [load_last_followed, load_last_followed, collectFollowed_filter_obj lines h]
  · rw [load_last_followed, hc]
    cases limit with
    | none => exact ⟨_, rfl⟩
    | some n => cases n with
      | zero => exact ⟨_, rfl⟩
      | succ m => exact ⟨_, rfl⟩

/-- Witness for the amended C6 theorem: a malformed line is skipped. -/
theorem load_last_followed_skips_bad_json_witness :
    load_last_followed [LogLine.badJson, LogLine.obj (recFollowOK "erin")] none
      = load_last_followed [LogLine.obj (recFollowOK "erin")] none := by
  have h := load_last_followed_skips_bad_json
      [LogLine.badJson, LogLine.obj (recFollowOK "erin")] none (by decide)
  exact h.1

/-- Claim C10: a limit of 0 (like `None`) is falsy for `if limit:`, so it
returns the full deduplicated list, not the 0 most recent entries. -/
theorem load_last_followed_zero_limit (lines : List LogLine) :
    load_last_followed lines (some 0) = load_last_followed lines none
    ∧ ∀ res, load_last_followed lines (some 0) = .ok res →
        res = keepFirst (followedNamesSpec lines) := by
  constructor
  · cases hc : collectFollowed lines <;> simp [load_last_followed, hc]
  · intro res hres
    rw [load_last_followed] at hres
    cases hc : collectFollowed lines with
    | error e => rw [hc] at hres; cases hres
    | ok fs =>
      rw [hc] at hres
      have hr : keepFirst fs = res := Except.ok.inj hres
      rw [← hr, collectFollowed_names_of_ok lines fs hc]

/-- Witness for the C10 theorem at a concrete one-record log. -/
theorem load_last_followed_zero_limit_witness :
    load_last_followed [LogLine.obj (recFollowOK "dave")] (some 0)
        = load_last_followed [LogLine.obj (recFollowOK "dave")] none
    ∧ [JVal.jstr "dave".toList]
        = keepFirst (followedNamesSpec [LogLine.obj (recFollowOK "dave")]) :=
  ⟨(load_last_followed_zero_limit _).1,
   (load_last_followed_zero_limit _).2 [JVal.jstr "dave".toList] (by rfl)⟩

/-! ## Authentication flow: `ig_login` (source lines 133-164)

The first wait for the username field sits in `try ... except Exception:
pass`, so its timeout is swallowed.  The immediately following
clickable-waits for the username and password fields and the submit-button
lookup are unguarded and raise on failure.  Every interaction of the
post-submit retry loop (URL check, "Not now" dismissals, backoff) is
guarded, so that loop always returns normally and needs no further
modelling. -/

def errTimeoutUser : Str := "Timeout:username".toList
def errTimeoutPass : Str := "Timeout:password".toList
def errNoSubmit : Str := "NoSuchElement:submit".toList

/-- Outcomes of the element waits of `ig_login` on a given session:
whether each bounded wait finds its element in time. -/
structure LoginPage where
  usernameFieldAppears : Bool
  usernameClickable : Bool
  passwordClickable : Bool
  submitFound : Bool
deriving DecidableEq

/-- Control flow of `ig_login`: the guarded presence-wait has no
control-flow effect (its outcome `usernameFieldAppears` is discarded);
the unguarded waits raise on timeout; afterwards the retry loop swallows
all its own failures and the function returns normally. -/
def ig_login (p : LoginPage) : Except Str Unit :=
  if !p.usernameClickable then .error errTimeoutUser
  else if !p.passwordClickable then .error errTimeoutPass
  else if !p.submitFound then .error errNoSubmit
  else .ok ()

/-- Claim C5, counterexample: if the username field never renders, the
guarded presence-wait's timeout is swallowed, but the very next unguarded
clickable-wait on the same field raises — `ig_login` does fail. -/
theorem ig_login_fails_without_username_field :
    ig_login ⟨false, false, true, true⟩ = .error errTimeoutUser := rfl

/-- Claim C5, amended: the bounded presence-wait itself is non-fatal — its
outcome never affects control flow, and login proceeds whenever the
subsequent unguarded waits succeed — but `ig_login` still raises whenever
the username field never becomes clickable. -/
theorem ig_login_presence_wait_nonfatal (p : LoginPage)
    (hu : p.usernameClickable = true) (hp : p.passwordClickable = true)
    (hs : p.submitFound = true) :
    ig_login p = .ok ()
    ∧ ∀ q : LoginPage, q.usernameClickable = false →
        ig_login q = .error errTimeoutUser := by
  constructor
  · rw [ig_login]
    simp [hu, hp, hs]
  · intro q hq
    rw [ig_login]
    simp [hq]

/-- Witness for the amended C5 theorem: a session whose username field
never rendered in the first wait but is clickable later still logs in. -/
theorem ig_login_presence_wait_nonfatal_witness :
    ig_login ⟨false, true, true, true⟩ = .ok ()
    ∧ ig_login ⟨true, false, true, true⟩ = .error errTimeoutUser :=
  ⟨(ig_login_presence_wait_nonfatal ⟨false, true, true, true⟩ rfl rfl rfl).1,
   (ig_login_presence_wait_nonfatal ⟨false, true, true, true⟩ rfl rfl rfl).2
     ⟨true, false, true, true⟩ rfl⟩

/-! ## Relationship-state prober: `get_follow_state` (source lines 173-202)

The function iterates an ordered list of XPath strategies.  We model the
driver's response to each strategy as `Except Unit (List Elem)`: `.error`
is any exception inside the per-strategy `try` (swallowed by
`except Exception: continue`), `.ok` the element list `find_elements`
returned.  The concrete script passes four strategies; the model accepts
any ordered list of strategy outcomes. -/

/-- A located DOM element: whether it is visibly rendered, and its text. -/
structure Elem where
  displayed : Bool
  text : Str
deriving DecidableEq

/-- `get_follow_state`: for each strategy in order, skip failures and empty
match lists; otherwise pick the first displayed match (falling back to the
first match), strip its text, and compare it case-insensitively against
the three labels; return "unavailable" when no strategy recognizes one. -/
def get_follow_state : List (Except Unit (List Elem)) → Str
  | [] => tagUnavailable
  | .error _ :: rest => get_follow_state rest
  | .ok [] :: rest => get_follow_state rest
  | .ok (b :: bs) :: rest =>
    let btn := ((b :: bs).find? (fun e => e.displayed)).getD b
    let label := pyStrip btn.text
    if pyLower label = tagFollow then tagFollow
    else if pyLower label = tagFollowing then tagFollowing
    else if pyLower label = tagRequested then tagRequested
    else get_follow_state rest

/-- Modelled from the spec: "prefer the first element that is visibly
rendered; fall back to the first match otherwise". -/
def preferredElem (l : List Elem) : Option Elem :=
  match l.filter (fun e => e.displayed) with
  | e :: _ => some e
  | [] => l.head?

/-- Modelled from the spec: "button text is matched case-insensitively
against the literals" after trimming. -/
def classifyLabel (t : Str) : Option Str :=
  if pyLower (pyStrip t) = tagFollow then some tagFollow
  else if pyLower (pyStrip t) = tagFollowing then some tagFollowing
  else if pyLower (pyStrip t) = tagRequested then some tagRequested
  else none

/-- Modelled from the spec (section 4.1): what one strategy yields — the
recognizable label of its preferred element, if any. -/
def stratLabel (r : Except Unit (List Elem)) : Option Str :=
  match r with
  | .error _ => none
  | .ok l => (preferredElem l).bind (fun e => classifyLabel e.text)

/-- Modelled from the spec (section 4.1): evaluate strategies in priority
order; the first recognizable label wins; otherwise "unavailable". -/
def probeSpec (rs : List (Except Unit (List Elem))) : Str :=
  (rs.filterMap stratLabel).headD tagUnavailable

theorem tagFollowing_ne_follow : tagFollowing ≠ tagFollow := by decide

theorem tagRequested_ne_follow : tagRequested ≠ tagFollow := by decide

theorem tagRequested_ne_following : tagRequested ≠ tagFollowing := by decide

theorem find?_eq_head_filter {α : Type} (p : α → Bool) (l : List α) :
    l.find? p = (l.filter p).head? := by
  induction l with
  | nil => rfl
  | cons a t ih =>
    by_cases h : p a
    · rw [List.find?_cons_of_pos _ h, List.filter_cons_of_pos h, List.head?_cons]
    · rw [List.find?_cons_of_neg _ h, List.filter_cons_of_neg h, ih]

theorem preferredElem_cons (b : Elem) (bs : List Elem) :
    preferredElem (b :: bs) = some (((b :: bs).find? (fun e => e.displayed)).getD b) := by
  rw [preferredElem, find?_eq_head_filter]
  cases hf : (b :: bs).filter (fun e => e.displayed) with
  | nil => simp
  | cons e es => simp

theorem gfs_cons_ok (b : Elem) (bs : List Elem) (rest : List (Except Unit (List Elem))) :
    get_follow_state (.ok (b :: bs) :: rest)
      = (classifyLabel (((b :: bs).find? (fun e => e.displayed)).getD b).text).getD
          (get_follow_state rest) := by
  rw [get_follow_state, classifyLabel]
  by_cases h1 : pyLower (pyStrip ((((b :: bs).find? (fun e => e.displayed)).getD b).text))
      = tagFollow
  · simp [h1]
  · by_cases h2 : pyLower (pyStrip ((((b :: bs).find? (fun e => e.displayed)).getD b).text))
        = tagFollowing
    · simp [h1, h2, tagFollowing_ne_follow]
    · by_cases h3 : pyLower (pyStrip ((((b :: bs).find? (fun e => e.displayed)).getD b).text))
          = tagRequested <;>
        simp [h1, h2, h3, tagRequested_ne_follow, tagRequested_ne_following]

theorem probeSpec_cons (r : Except Unit (List Elem)) (rest : List (Except Unit (List Elem))) :
    probeSpec (r :: rest) = (stratLabel r).getD (probeSpec rest) := by
  cases hb : stratLabel r with
  | none => rw [probeSpec, List.filterMap_cons, hb]; rfl
  | some s => rw [probeSpec, List.filterMap_cons, hb]; rfl

theorem stratLabel_ok_cons (b : Elem) (bs : List Elem) :
    stratLabel (Except.ok (b :: bs))
      = classifyLabel (((b :: bs).find? (fun e => e.displayed)).getD b).text := by
  have h1 : stratLabel (Except.ok (b :: bs))
      = (preferredElem (b :: bs)).bind (fun e => classifyLabel e.text) := rfl
  rw [h1, preferredElem_cons]
  rfl

theorem classifyLabel_cases (t : Str) (s : Str) (h : classifyLabel t = some s) :
    s = tagFollow ∨ s = tagFollowing ∨ s = tagRequested := by
  rw [classifyLabel] at h
  by_cases h1 : pyLower (pyStrip t) = tagFollow
  · rw [if_pos h1] at h
    exact Or.inl (Option.some.inj h).symm
  · rw [if_neg h1] at h
    by_cases h2 : pyLower (pyStrip t) = tagFollowing
    · rw [if_pos h2] at h
      exact Or.inr (Or.inl (Option.some.inj h).symm)
    · rw [if_neg h2] at h
      by_cases h3 : pyLower (pyStrip t) = tagRequested
      · rw [if_pos h3] at h
        exact Or.inr (Or.inr (Option.some.inj h).symm)
      · rw [if_neg h3] at h
        cases h

/-- Claim C7: the prober is total over every page (exceptions inside a
strategy are consumed as `.error` outcomes, never propagated), it agrees
with the spec's contract `probeSpec` — ordered strategies, preferring the
first visibly rendered match with fallback to the first match,
case-insensitive labels, "unavailable" when nothing is recognizable — and
it returns exactly one of the four relationship states. -/
theorem get_follow_state_contract (rs : List (Except Unit (List Elem))) :
    get_follow_state rs = probeSpec rs
    ∧ (get_follow_state rs = tagFollow ∨ get_follow_state rs = tagFollowing
        ∨ get_follow_state rs = tagRequested ∨ get_follow_state rs = tagUnavailable) := by
  induction rs with
  | nil => exact ⟨rfl, Or.inr (Or.inr (Or.inr rfl))⟩
  | cons r rest ih =>
    cases r with
    | error e =>
      have he : stratLabel (Except.error e) = none := rfl
      refine ⟨?_, ?_⟩
      · rw [get_follow_state, probeSpec_cons, he, Option.getD_none]
        exact ih.1
      · rw [get_follow_state]
        exact ih.2
    | ok l =>
      cases l with
      | nil =>
        have he : stratLabel (Except.ok ([] : List Elem)) = none := rfl
        refine ⟨?_, ?_⟩
        · rw [get_follow_state, probeSpec_cons, he, Option.getD_none]
          exact ih.1
        · rw [get_follow_state]
          exact ih.2
      | cons b bs =>
        rw [gfs_cons_ok, probeSpec_cons, stratLabel_ok_cons]
        cases hcl : classifyLabel ((((b :: bs).find? (fun e => e.displayed)).getD b).text) with
        | none =>
          rw [Option.getD_none, Option.getD_none]
          exact ih
        | some s =>
          rw [Option.getD_some, Option.getD_some]
          refine ⟨rfl, ?_⟩
          rcases classifyLabel_cases _ s hcl with h | h | h <;> simp [h]

/-! ## Per-user state machine: `process_user` (source lines 246-307)

The browser is an oracle: whether `open_profile` succeeds (its header wait
raises on timeout, caught by the function's outer `try`), the state the
prober reports before acting, the boolean results of
`click_follow`/`click_unfollow` (which never raise), and the re-probed
state.  `get_follow_state` itself never raises (claim C7), so the only
fault the outer `try` can see is the profile load; its `repr(e)` message
is modelled as a fixed token.  The timestamp field and the `write_jsonl`
call are not modelled (the record is returned; the log write is
unconditional on every path).  The trace records the browser interactions
performed, in order. -/

/-- One browser interaction performed by `process_user`. -/
inductive Eff : Type
  | openProfile
  | probe
  | clickFollow
  | clickUnfollow
deriving DecidableEq

/-- Oracle for the browser-dependent outcomes of one `process_user` call. -/
structure Browser where
  openOk : Bool
  state1 : Str
  followClickOk : Bool
  unfollowClickOk : Bool
  state2 : Str
deriving DecidableEq

/-- The record `process_user` builds (`ts` omitted: time is not modelled). -/
structure ActionRec : Type where
  username : Str
  mode : Str
  action : Option Str
  success : Bool
  state_before : Option Str
  state_after : Option Str
  error : Option Str
deriving DecidableEq

def errOpenProfile : Str := "open_profile_failed".toList
def errUnknownMode : Str := "unknown_mode".toList

/-- Python `whitelist and username in whitelist`: a `None` or empty
whitelist is falsy. -/
def whitelistHit (whitelist : Option (List Str)) (username : Str) : Bool :=
  match whitelist with
  | some w => !w.isEmpty && w.contains username
  | none => false

/-- `process_user`, returning the action record and the browser trace. -/
def process_user (b : Browser) (username mode : Str)
    (whitelist : Option (List Str)) : ActionRec × List Eff :=
  let rec0 : ActionRec := ⟨username, mode, none, false, none, none, none⟩
  if whitelistHit whitelist username && mode == tagUnfollow then
    ({ rec0 with action := some tagSkipWhitelisted, success := true }, [])
  else if !b.openOk then
    ({ rec0 with error := some errOpenProfile }, [.openProfile])
  else
    let rec1 := { rec0 with state_before := some b.state1 }
    if mode == tagFollow then
      if b.state1 == tagFollow then
        ({ rec1 with
            state_after := some b.state2,
            action := some (if b.followClickOk then tagFollow else tagNoopFollowClickFailed),
            success := b.followClickOk
              && (b.state2 == tagFollowing || b.state2 == tagRequested) },
         [.openProfile, .probe, .clickFollow, .probe])
      else if b.state1 == tagFollowing || b.state1 == tagRequested then
        ({ rec1 with action := some tagNoopAlreadyFollowing, success := true },
         [.openProfile, .probe])
      else
        ({ rec1 with action := some tagNoopUnavailable, success := false },
         [.openProfile, .probe])
    else if mode == tagUnfollow then
      if b.state1 == tagFollowing then
        ({ rec1 with
            state_after := some b.state2,
            action := some (if b.unfollowClickOk then tagUnfollow else tagNoopUnfollowClickFailed),
            success := b.unfollowClickOk
              && (b.state2 == tagFollow || b.state2 == tagUnavailable) },
         [.openProfile, .probe, .clickUnfollow, .probe])
      else if b.state1 == tagFollow || b.state1 == tagRequested then
        ({ rec1 with action := some tagNoopNotFollowing, success := true },
         [.openProfile, .probe])
      else
        ({ rec1 with action := some tagNoopUnavailable, success := false },
         [.openProfile, .probe])
    else
      ({ rec1 with error := some errUnknownMode }, [.openProfile, .probe])

/-- Claim C1, counterexample: when the prober reports "follow" in follow
mode but the click fails, the action tag is `noop_follow_click_failed`,
not the table's `follow` (and likewise `noop_unfollow_click_failed` in
unfollow mode) — tags the section 4.4 table does not contain. -/
theorem process_user_click_failure_tag :
    (process_user ⟨true, tagFollow, false, false, tagFollow⟩
        ("alice".toList) tagFollow none).1.action
      = some tagNoopFollowClickFailed
    ∧ (process_user ⟨true, tagFollowing, false, false, tagFollowing⟩
        ("alice".toList) tagUnfollow none).1.action
      = some tagNoopUnfollowClickFailed
    ∧ some tagNoopFollowClickFailed ≠ some tagFollow := by
  refine ⟨rfl, rfl, by decide⟩

/-- Claim C1, amended: with the profile loaded and no whitelist skip, the
state machine matches the section 4.4 table, except that a failed click
yields tag `noop_follow_click_failed` (resp. `noop_unfollow_click_failed`)
instead of `follow` (resp. `unfollow`); success is the click result
conjoined with the re-probed state check exactly as the table states. -/
theorem process_user_state_machine (b : Browser) (u : Str)
    (hopen : b.openOk = true) :
    (b.state1 = tagFollow →
      (process_user b u tagFollow none).1.action
          = some (if b.followClickOk then tagFollow else tagNoopFollowClickFailed)
      ∧ (process_user b u tagFollow none).1.success
          = (b.followClickOk && (b.state2 == tagFollowing || b.state2 == tagRequested)))
    ∧ ((b.state1 = tagFollowing ∨ b.state1 = tagRequested) →
      (process_user b u tagFollow none).1.action = some tagNoopAlreadyFollowing
      ∧ (process_user b u tagFollow none).1.success = true)
    ∧ (b.state1 = tagUnavailable →
      (process_user b u tagFollow none).1.action = some tagNoopUnavailable
      ∧ (process_user b u tagFollow none).1.success = false)
    ∧ (b.state1 = tagFollowing →
      (process_user b u tagUnfollow none).1.action
          = some (if b.unfollowClickOk then tagUnfollow else tagNoopUnfollowClickFailed)
      ∧ (process_user b u tagUnfollow none).1.success
          = (b.unfollowClickOk && (b.state2 == tagFollow || b.state2 == tagUnavailable)))
    ∧ ((b.state1 = tagFollow ∨ b.state1 = tagRequested) →
      (process_user b u tagUnfollow none).1.action = some tagNoopNotFollowing
      ∧ (process_user b u tagUnfollow none).1.success = true)
    ∧ (b.state1 = tagUnavailable →
      (process_user b u tagUnfollow none).1.action = some tagNoopUnavailable
      ∧ (process_user b u tagUnfollow none).1.success = false) := by
  obtain ⟨bo, s1, fc, uc, s2⟩ := b
  simp only at hopen
  subst hopen
  refine ⟨?_, ?_, ?_, ?_, ?_, ?_⟩
  · intro h1
    simp only at h1
    subst h1
    exact ⟨rfl, rfl⟩
  · rintro (h1 | h1) <;> (simp only at h1; subst h1; exact ⟨rfl, rfl⟩)
  · intro h1
    simp only at h1
    subst h1
    exact ⟨rfl, rfl⟩
  · intro h1
    simp only at h1
    subst h1
    exact ⟨rfl, rfl⟩
  · rintro (h1 | h1) <;> (simp only at h1; subst h1; exact ⟨rfl, rfl⟩)
  · intro h1
    simp only at h1
    subst h1
    exact ⟨rfl, rfl⟩

/-- Witness for the amended C1 theorem: a successful follow of a
not-yet-followed account gets tag `follow` and success true. -/
theorem process_user_state_machine_witness :
    (process_user ⟨true, tagFollow, true, true, tagFollowing⟩
        ("alice".toList) tagFollow none).1.action = some tagFollow
    ∧ (process_user ⟨true, tagFollow, true, true, tagFollowing⟩
        ("alice".toList) tagFollow none).1.success = true := by
  have h := (process_user_state_machine
      ⟨true, tagFollow, true, true, tagFollowing⟩ ("alice".toList) rfl).1 rfl
  exact ⟨h.1, h.2⟩

/-- Claim C8: in unfollow mode a whitelisted username is recorded as
`skip_whitelisted` with success true, for every browser state, and the
browser trace is empty — no profile load, no probe, no click. -/
theorem process_user_whitelist (b : Browser) (u : Str) (w : List Str)
    (h : u ∈ w) :
    (process_user b u tagUnfollow (some w)).1.action = some tagSkipWhitelisted
    ∧ (process_user b u tagUnfollow (some w)).1.success = true
    ∧ (process_user b u tagUnfollow (some w)).2 = [] := by
  have hw : whitelistHit (some w) u = true := by
    rw [whitelistHit]
    have hne : w ≠ [] := List.ne_nil_of_mem h
    simp [List.isEmpty_iff, hne, h]
  rw [process_user]
  simp [hw]

/-- Witness for the C8 theorem at a concrete whitelisted user. -/
theorem process_user_whitelist_witness :
    (process_user ⟨true, tagFollowing, true, true, tagFollowing⟩
        ("alice".toList) tagUnfollow (some ["alice".toList])).1.action
      = some tagSkipWhitelisted
    ∧ (process_user ⟨true, tagFollowing, true, true, tagFollowing⟩
        ("alice".toList) tagUnfollow (some ["alice".toList])).2 = [] := by
  have h := process_user_whitelist ⟨true, tagFollowing, true, true, tagFollowing⟩
      ("alice".toList) ["alice".toList] (by decide)
  exact ⟨h.1, h.2.2⟩

/-! ## Top-level loop of `main` (source lines 351-370)

The loop iterates the resolved usernames; before each user it breaks when
`actions_done >= max_actions`; after processing it adds 1 to
`actions_done` unless the record's action tag is one of the two
"already satisfied" no-ops.  `step u` abstracts `rec.get("action")` for
the record `process_user` returns for `u` (`none` models an unset tag,
which is NOT in the excluded set, hence counted).  The final summary
prints `min(args.max_actions, len(usernames))` as the processed count. -/

/-- The counter update after one user: `actions_done += 1 if
rec.get("action") not in {"noop_already_following", "noop_not_following"}
else 0`. -/
def nextDone (step : Str → Option Str) (u : Str) (done : Nat) : Nat :=
  if step u ∈ [some tagNoopAlreadyFollowing, some tagNoopNotFollowing] then done
  else done + 1

/-- The processing loop: returns the processed usernames in order and the
final `actions_done` counter. -/
def mainLoop (step : Str → Option Str) (maxActions : Nat) :
    List Str → Nat → List Str × Nat
  | [], done => ([], done)
  | u :: rest, done =>
    if maxActions ≤ done then ([], done)
    else
      (u :: (mainLoop step maxActions rest (nextDone step u done)).1,
        (mainLoop step maxActions rest (nextDone step u done)).2)

/-- Does the tag of `u` consume the action budget? Every tag except the
two "already satisfied" no-ops does. -/
def countsTag (step : Str → Option Str) (u : Str) : Bool :=
  !(step u == some tagNoopAlreadyFollowing || step u == some tagNoopNotFollowing)

/-- The number `main` prints as `Processed=` in the final summary:
`min(args.max_actions, len(usernames))` (source line 370). -/
def printedProcessed (maxActions : Nat) (users : List Str) : Nat :=
  min maxActions users.length

theorem countsTag_false (step : Str → Option Str) (u : Str)
    (hc : step u ∈ [some tagNoopAlreadyFollowing, some tagNoopNotFollowing]) :
    countsTag step u = false := by
  rcases List.mem_cons.mp hc with h1 | h1
  · simp [countsTag, h1]
  · rcases List.mem_cons.mp h1 with h2 | h2
    · simp [countsTag, h2]
    · exact absurd h2 (List.not_mem_nil _)

theorem countsTag_true (step : Str → Option Str) (u : Str)
    (hc : step u ∉ [some tagNoopAlreadyFollowing, some tagNoopNotFollowing]) :
    countsTag step u = true := by
  have h1 : step u ≠ some tagNoopAlreadyFollowing :=
    fun he => hc (by rw [he]; exact List.mem_cons_self _ _)
  have h2 : step u ≠ some tagNoopNotFollowing :=
    fun he => hc (by rw [he]; exact List.mem_cons_of_mem _ (List.mem_cons_self _ _))
  simp [countsTag, h1, h2]

theorem mainLoop_take (step : Str → Option Str) (maxActions : Nat)
    (users : List Str) (done : Nat) :
    ∃ k, (mainLoop step maxActions users done).1 = users.take k := by
  induction users generalizing done with
  | nil => exact ⟨0, rfl⟩
  | cons u rest ih =>
    by_cases h : maxActions ≤ done
    · refine ⟨0, ?_⟩
      rw [mainLoop, if_pos h]
      rfl
    · obtain ⟨k, hk⟩ := ih (nextDone step u done)
      refine ⟨k + 1, ?_⟩
      rw [mainLoop, if_neg h, List.take_succ_cons, hk]

theorem mainLoop_count (step : Str → Option Str) (maxActions : Nat)
    (users : List Str) (done : Nat) :
    (mainLoop step maxActions users done).2
      = done + (mainLoop step maxActions users done).1.countP (countsTag step) := by
  induction users generalizing done with
  | nil => rfl
  | cons u rest ih =>
    by_cases h : maxActions ≤ done
    · rw [mainLoop, if_pos h]
      rfl
    · rw [mainLoop, if_neg h]
      show (mainLoop step maxActions rest (nextDone step u done)).2
        = done + List.countP (countsTag step)
            (u :: (mainLoop step maxActions rest (nextDone step u done)).1)
      rw [List.countP_cons]
      by_cases hc : step u ∈ [some tagNoopAlreadyFollowing, some tagNoopNotFollowing]
      · have hnd : nextDone step u done = done := by rw [nextDone, if_pos hc]
        rw [hnd, ih done, countsTag_false step u hc]
        simp
      · have hnd : nextDone step u done = done + 1 := by rw [nextDone, if_neg hc]
        rw [hnd, ih (done + 1), countsTag_true step u hc]
        simp
        omega

theorem mainLoop_stops_at_budget (step : Str → Option Str) (maxActions : Nat)
    (users : List Str) (done : Nat) (hle : done ≤ maxActions)
    (hstop : (mainLoop step maxActions users done).1 ≠ users) :
    (mainLoop step maxActions users done).2 = maxActions := by
  induction users generalizing done with
  | nil => exact absurd rfl hstop
  | cons u rest ih =>
    by_cases h : maxActions ≤ done
    · rw [mainLoop, if_pos h]
      exact Nat.le_antisymm hle h
    · rw [mainLoop, if_neg h] at hstop ⊢
      have hlt : done < maxActions := Nat.lt_of_not_le h
      have hstop2 : (mainLoop step maxActions rest (nextDone step u done)).1 ≠ rest := by
        intro he
        apply hstop
        show u :: (mainLoop step maxActions rest (nextDone step u done)).1 = u :: rest
        rw [he]
      have hle2 : nextDone step u done ≤ maxActions := by
        rw [nextDone]
        by_cases hc : step u ∈ [some tagNoopAlreadyFollowing, some tagNoopNotFollowing]
        · rw [if_pos hc]
          exact hle
        · rw [if_neg hc]
          exact hlt
      exact ih (nextDone step u done) hle2 hstop2

/-- Claim C2: a processed username consumes the action budget unless its
tag is `noop_already_following` or `noop_not_following` (an unset tag and
`skip_whitelisted` do consume it); the loop processes a prefix of the list
and, whenever it stops before exhausting the list, the counter has exactly
reached max-actions; with max-actions 1, a first user resolving to
`noop_already_following` lets a second user be processed, while a first
user resolving to the actionable `follow` tag ends the run after that one
user. -/
theorem mainLoop_budget (step : Str → Option Str) (maxActions : Nat)
    (users : List Str) :
    (∃ k, (mainLoop step maxActions users 0).1 = users.take k)
    ∧ (mainLoop step maxActions users 0).2
        = (mainLoop step maxActions users 0).1.countP (countsTag step)
    ∧ ((mainLoop step maxActions users 0).1 ≠ users →
        (mainLoop step maxActions users 0).2 = maxActions)
    ∧ (∀ u1 u2, step u1 = some tagNoopAlreadyFollowing →
        (mainLoop step 1 [u1, u2] 0).1 = [u1, u2])
    ∧ (∀ u1 u2, step u1 = some tagFollow →
        (mainLoop step 1 [u1, u2] 0).1 = [u1]) := by
  refine ⟨mainLoop_take step maxActions users 0,
    by simpa using mainLoop_count step maxActions users 0,
    mainLoop_stops_at_budget step maxActions users 0 (Nat.zero_le _), ?_, ?_⟩
  · intro u1 u2 h1
    have hc : step u1 ∈ [some tagNoopAlreadyFollowing, some tagNoopNotFollowing] :=
      List.mem_cons.mpr (Or.inl h1)
    have hnd : nextDone step u1 0 = 0 := by rw [nextDone, if_pos hc]
    rw [mainLoop, if_neg (by decide), hnd, mainLoop, if_neg (by decide), mainLoop]
  · intro u1 u2 h1
    have hc : step u1 ∉ [some tagNoopAlreadyFollowing, some tagNoopNotFollowing] := by
      rw [h1]
      decide
    have hnd : nextDone step u1 0 = 1 := by rw [nextDone, if_neg hc]
    rw [mainLoop, if_neg (by decide), hnd, mainLoop, if_pos (by decide)]

/-- Witness for the C2 theorem: with max-actions 1, a first already-followed
user does not consume the budget and a second user is processed; with an
actionable first user the run stops after one. -/
theorem mainLoop_budget_witness :
    (mainLoop
        (fun u => if u = "a".toList then some tagNoopAlreadyFollowing else some tagFollow)
        1 ["a".toList, "b".toList] 0).1 = ["a".toList, "b".toList]
    ∧ (mainLoop (fun _ => some tagFollow) 1 ["a".toList, "b".toList] 0).1
        = ["a".toList] := by
  constructor
  · exact (mainLoop_budget
      (fun u => if u = "a".toList then some tagNoopAlreadyFollowing else some tagFollow)
      1 ["a".toList, "b".toList]).2.2.2.1 ("a".toList) ("b".toList) (by simp)
  · exact (mainLoop_budget (fun _ => some tagFollow)
      1 ["a".toList, "b".toList]).2.2.2.2 ("a".toList) ("b".toList) rfl

/-- The tag oracle of the C9 failing run: the first user is already
followed (a no-op), every other user is an actionable follow. -/
def stepC9 (u : Str) : Option Str :=
  if u = "alice".toList then some tagNoopAlreadyFollowing else some tagFollow

/-- Claim C9 (code bug): `main` prints `Processed=min(max_actions,
len(usernames))`, not the number of usernames actually processed.  With
max-actions 1 and usernames `[alice, bob]`, where alice resolves to
`noop_already_following` (not counted) and bob to an actionable follow,
the loop processes both usernames, yet the summary prints `Processed=1`. -/
theorem printed_count_mismatch :
    (mainLoop stepC9 1 ["alice".toList, "bob".toList] 0).1.length = 2
    ∧ printedProcessed 1 ["alice".toList, "bob".toList] = 1
    ∧ (2 : Nat) ≠ 1 := by
  refine ⟨?_, rfl, by decide⟩
  have h1 : stepC9 ("alice".toList) = some tagNoopAlreadyFollowing := by
    rw [stepC9, if_pos rfl]
  have hc : stepC9 ("alice".toList)
      ∈ [some tagNoopAlreadyFollowing, some tagNoopNotFollowing] :=
    List.mem_cons.mpr (Or.inl h1)
  have hnd : nextDone stepC9 ("alice".toList) 0 = 0 := by rw [nextDone, if_pos hc]
  rw [mainLoop, if_neg (by decide), hnd, mainLoop, if_neg (by decide), mainLoop]
  rfl

end IGBot
